import Mathlib

/-! Verification of `scripts/generate.py`, a static-site generator: it
discovers reStructuredText sources, extracts per-file git history,
orders pages by first-commit date, renders pages and an index, and
publishes static assets.  Python functions are shallowly embedded as
Lean definitions; the filesystem, subprocess results and the clock are
passed in explicitly.  String primitives (`split`, `strip`, `rstrip`)
are re-implemented on `List Char` so that all definitions evaluate by
kernel reduction.
-/

namespace SiteGen

/-- Python's `s.split(sep)` for a one-character separator `c`:
accumulate the current field, emit it at each separator, keep empty
fields. -/
def splitCharAux (c : Char) : List Char → List Char → List String
  | [], acc => [⟨acc.reverse⟩]
  | x :: xs, acc =>
    if x = c then ⟨acc.reverse⟩ :: splitCharAux c xs []
    else splitCharAux c xs (x :: acc)

/-- Model of `s.split(c)` for a single-character separator. -/
def splitOnChar (c : Char) (s : String) : List String :=
  splitCharAux c s.data []

/-- Model of `"|".join(xs)`, used to restore the pipes that a bounded split kept
in its final field. -/
def joinPipe : List String → String
  | [] => ""
  | [x] => x
  | x :: xs => x ++ "|" ++ joinPipe xs

/-- Python's `s.strip()`: remove leading and trailing whitespace. -/
def pyStrip (s : String) : String :=
  ⟨ ((s.data.dropWhile Char.isWhitespace).reverse.dropWhile Char.isWhitespace).reverse⟩

/-- Python's `s.rstrip(chars)`: remove trailing characters while they
belong to the character set `chars` (NOT suffix removal). -/
def pyRstrip (chars : String) (s : String) : String :=
  ⟨ (s.data.reverse.dropWhile (fun c => chars.data.contains c)).reverse⟩

/-- A parsed commit record, one per accepted `git log` output line:
`{"sha": sha, "date": date, "author": author, "message": message}`. -/
structure Commit where
  sha : String
  date : String
  author : String
  message : String
deriving DecidableEq

/-- Result of a subprocess invocation: exit status and captured stdout
(`subprocess.run(..., capture_output=True, text=True)`). -/
structure SubprocResult where
  returncode : Int
  stdout : String

/-- Python's `line.split("|", 3)`: split on at most the first three `"|"`
occurrences, so the result has at most four fields and the fourth keeps
any further pipes. -/
def splitPipe3 (line : String) : List String :=
  match splitOnChar '|' line with
  | p0 :: p1 :: p2 :: rest@(_ :: _) => [p0, p1, p2, joinPipe rest]
  | ps => ps

/-- The parsing loop of `git_log_commits`: lines whose `split("|", 3)`
has fewer than 4 fields are skipped (`continue`), the rest become
commit records in line order. -/
def collectCommits : List String → List Commit
  | [] => []
  | line :: rest =>
    match splitPipe3 line with
    | [sha, date, author, message] => ⟨sha, date, author, message⟩ :: collectCommits rest
    | _ => collectCommits rest

/-- Model of `git_log_commits(path)` given the subprocess outcome: on non-zero exit
status return `[]`; otherwise keep the non-blank stdout lines
(`if l.strip()`) and parse each pipe-delimited line. -/
def git_log_commits (res : SubprocResult) : List Commit :=
  if res.returncode ≠ 0 then []
  else
    let lines := (splitOnChar '\n' res.stdout).filter (fun l => pyStrip l != "")
    collectCommits lines

/-- The stdout lines that `git_log_commits` keeps: non-blank, and
splitting into at least four pipe-delimited fields. -/
def keptLogLines (out : String) : List String :=
  ((splitOnChar '\n' out).filter (fun l => pyStrip l != "")).filter
    (fun l => 4 ≤ (splitPipe3 l).length)

/-- The commit record extracted from a kept line. -/
def lineToCommit (l : String) : Commit :=
  match splitPipe3 l with
  | [sha, date, author, message] => ⟨sha, date, author, message⟩
  | _ => ⟨ "", "", "", ""⟩

/-- Model of `first_commit_date(commits)`: the date of the last (oldest) commit of
a newest-first list, or the current timestamp `now`
(`datetime.now(timezone.utc).isoformat()`, passed in explicitly) when
the list is empty. -/
def first_commit_date (now : String) (commits : List Commit) : String :=
  if h : commits = [] then now
  else (commits.getLast h).date

/-- Model of `commit_url(sha)` from `main`, with the captured `repo_url` made an
explicit argument: `"#"` when `repo_url` is falsy, otherwise
`repo_url.rstrip(".git").rstrip("/") + "/commit/" + sha`. -/
def commit_url (repo_url : String) (sha : String) : String :=
  if repo_url = "" then "#"
  else pyRstrip "/" (pyRstrip ".git" repo_url) ++ "/commit/" ++ sha

/-- Model of `commits_for_path_url(relpath)` from `main`, with the captured
`repo_url` and `branch` made explicit arguments. -/
def commits_for_path_url (repo_url branch relpath : String) : String :=
  if repo_url = "" then "#"
  else pyRstrip "/" (pyRstrip ".git" repo_url) ++ "/commits/" ++ branch ++ "/" ++ relpath

/-- URL normalization following the spec's words — a trailing `"/"` and a
`".git"` suffix stripped — for comparison with the code's
`rstrip`-based normalization in `commit_url`. -/
def specNormalizeRepoUrl (u : String) : String :=
  let cs := u.data
  let cs1 := if cs.getLast? = some '/' then cs.dropLast else cs
  let cs2 :=
    if 4 ≤ cs1.length ∧ cs1.drop (cs1.length - 4) = ".git".data then cs1.take (cs1.length - 4)
    else cs1
  ⟨cs2⟩

/-- Model of `os.path.basename` for the slash-separated paths built here:
everything after the last `"/"`. -/
def basename (p : String) : String :=
  (splitOnChar '/' p).getLastD p

/-- Index of the last occurrence of `c`, as Python's `rfind`. -/
def lastIndexOf (c : Char) : List Char → Option Nat
  | [] => none
  | x :: xs =>
    match lastIndexOf c xs with
    | some i => some (i + 1)
    | none => if x = c then some 0 else none

/-- The root part of `os.path.splitext` applied to a basename: cut at
the last dot, unless every character before that dot is itself a dot
(leading dots do not start an extension). -/
def splitextRoot (b : String) : String :=
  match lastIndexOf '.' b.data with
  | none => b
  | some d => if (b.data.take d).any (fun ch => ch ≠ '.') then ⟨b.data.take d⟩ else b

/-- One entry of the page-building loop in `main`: the page dict built
for one source file.  `rel` is the `os.path.relpath(path, os.getcwd())`
result, an input here since it depends on the working directory. -/
structure Page where
  path : String
  rel : String
  slug : String
  out_filename : String
  commits : List Commit
  first_commit_date : String
  title : String
  url : String
deriving DecidableEq

/-- The body of the page-building loop in `main` (the dict literal at
lines 118-127 of `generate.py`). -/
def buildPage (now path rel : String) (commits : List Commit) : Page :=
  let slug := splitextRoot (basename path)
  let out_filename := slug ++ ".html"
  { path := path
    rel := rel
    slug := slug
    out_filename := out_filename
    commits := commits
    first_commit_date := first_commit_date now commits
    title := slug
    url := "/" ++ out_filename }

/-- The comparison realised by
`pages.sort(key=lambda p: p["first_commit_date"], reverse=True)`:
`a` may sit before `b` exactly when `a`'s key is not lexicographically
below `b`'s (Python compares `str` by code points). -/
def pageLe (a b : Page) : Bool :=
  decide (b.first_commit_date.data ≤ a.first_commit_date.data)

/-- Stable insertion with respect to a boolean comparison: `a` goes in
front of the first element `b` with `le a b`.  Python's `list.sort` is
a stable sort, and every stable sort agrees with stable insertion sort
for a total comparison. -/
def insertLe {α : Type} (le : α → α → Bool) (a : α) : List α → List α
  | [] => [a]
  | b :: t => if le a b then a :: b :: t else b :: insertLe le a t

/-- Stable sort by the comparison `le` (insertion sort, folding from the
right so earlier input wins ties). -/
def sortLe {α : Type} (le : α → α → Bool) : List α → List α
  | [] => []
  | a :: t => insertLe le a (sortLe le t)

/-- Model of `pages.sort(key=lambda p: p["first_commit_date"], reverse=True)`:
stable descending sort on the first-commit-date string. -/
def order (ps : List Page) : List Page := sortLe pageLe ps

/-- Model of `fn.lower().endswith(".rst")` (ASCII lowering, which suffices for
testing the `".rst"` suffix). -/
def isRstName (fn : String) : Bool :=
  ".rst".data.isSuffixOf (fn.data.map Char.toLower)

/-- Model of `os.path.join(root, fn)` for the relative slash-separated paths the
walk produces. -/
def pathJoin (a b : String) : String := a ++ "/" ++ b

mutual
/-- A directory tree: directly contained file names, and named
subdirectories. -/
inductive Dir where
  | mk (files : List String) (subdirs : DirList)
/-- The subdirectories of a directory, in `os.walk` traversal order. -/
inductive DirList where
  | nil
  | cons (name : String) (d : Dir) (rest : DirList)
end

mutual
/-- The `os.walk` loop of `find_rst_files`: for each visited directory,
append the joined paths of its matching files, then recurse top-down
into its subdirectories. -/
def walkDir (root : String) : Dir → List String
  | .mk fs sds =>
    (fs.filter isRstName).map (pathJoin root) ++ walkDirs root sds
def walkDirs (root : String) : DirList → List String
  | .nil => []
  | .cons n d rest => walkDir (pathJoin root n) d ++ walkDirs root rest
end

mutual
/-- All files below a directory, as (full path, file name) pairs — the
recursive file set that Content Discovery is specified against. -/
def filesUnder (root : String) : Dir → List (String × String)
  | .mk fs sds => fs.map (fun fn => (pathJoin root fn, fn)) ++ filesUnders root sds
def filesUnders (root : String) : DirList → List (String × String)
  | .nil => []
  | .cons n d rest => filesUnder (pathJoin root n) d ++ filesUnders root rest
end

/-- String comparison used by `sorted(rst_files)` (code-point
lexicographic, ascending). -/
def strLe (a b : String) : Bool := decide (a.data ≤ b.data)

/-- Model of `find_rst_files(content_dir)`: walk the tree mounted at
`content_dir`, keep `.rst` names case-insensitively, return them
sorted.  `none` models an absent directory, which `os.walk` (with its
default `onerror=None`) silently treats as having no entries. -/
def find_rst_files (content_dir : String) (fs : Option Dir) : List String :=
  match fs with
  | none => []
  | some d => sortLe strLe (walkDir content_dir d)

/-- ISO-8601 timestamps in git's `%cI` shape: numeric value of a decimal
digit. -/
def digitVal (c : Char) : Option Nat :=
  if '0' ≤ c ∧ c ≤ '9' then some (c.toNat - '0'.toNat) else none

/-- Two-digit decimal field. -/
def num2 (a b : Char) : Option Nat := do
  let x ← digitVal a
  let y ← digitVal b
  pure (10 * x + y)

/-- Four-digit decimal field. -/
def num4 (a b c d : Char) : Option Nat := do
  let x ← num2 a b
  let y ← num2 c d
  pure (100 * x + y)

/-- Days from 1970-01-01 to the civil date `y-m-d` in the proleptic
Gregorian calendar (era/year-of-era decomposition). -/
def daysFromCivil (y : Int) (m d : Nat) : Int :=
  let y1 : Int := if m ≤ 2 then y - 1 else y
  let era : Int := (if 0 ≤ y1 then y1 else y1 - 399) / 400
  let yoe : Int := y1 - era * 400
  let mp : Int := (Int.ofNat m + 9) % 12
  let doy : Int := (153 * mp + 2) / 5 + Int.ofNat d - 1
  let doe : Int := yoe * 365 + yoe / 4 - yoe / 100 + doy
  era * 146097 + doe - 719468

/-- The UTC instant, in seconds since the epoch, denoted by an ISO-8601
timestamp in git's `%cI` shape `YYYY-MM-DDTHH:MM:SS±hh:mm`; `none` for
strings not of that shape.  This is the chronological reading of the
timestamps that `first_commit_date` returns. -/
def isoUtcSeconds (s : String) : Option Int :=
  match s.data with
  | [y1, y2, y3, y4, '-', m1, m2, '-', d1, d2, 'T',
     h1, h2, ':', i1, i2, ':', s1, s2, sg, o1, o2, ':', o3, o4] => do
    let y ← num4 y1 y2 y3 y4
    let mo ← num2 m1 m2
    let da ← num2 d1 d2
    let h ← num2 h1 h2
    let mi ← num2 i1 i2
    let se ← num2 s1 s2
    let oh ← num2 o1 o2
    let om ← num2 o3 o4
    let sign : Int ← if sg = '+' then some 1 else if sg = '-' then some (-1) else none
    if 1 ≤ mo ∧ mo ≤ 12 ∧ 1 ≤ da ∧ da ≤ 31 ∧ h ≤ 23 ∧ mi ≤ 59 ∧ se ≤ 60
        ∧ oh ≤ 23 ∧ om ≤ 59 then
      pure (daysFromCivil (Int.ofNat y) mo da * 86400
        + (Int.ofNat (h * 3600 + mi * 60 + se))
        - sign * Int.ofNat ((oh * 60 + om) * 60))
    else none
  | _ => none

/-- Shared arithmetic of `isoUtcMicros`: the UTC instant in microseconds
since the epoch, from already-split decimal fields and an offset
sign. -/
def fieldsToMicros (y mo da h mi se micro : Nat) (sg : Char) (oh om : Nat) : Option Int := do
  let sign : Int ← if sg = '+' then some 1 else if sg = '-' then some (-1) else none
  if 1 ≤ mo ∧ mo ≤ 12 ∧ 1 ≤ da ∧ da ≤ 31 ∧ h ≤ 23 ∧ mi ≤ 59 ∧ se ≤ 60
      ∧ micro ≤ 999999 ∧ oh ≤ 23 ∧ om ≤ 59 then
    pure ((daysFromCivil (Int.ofNat y) mo da * 86400
        + Int.ofNat (h * 3600 + mi * 60 + se)
        - sign * Int.ofNat ((oh * 60 + om) * 60)) * 1000000
      + Int.ofNat micro)
  else none

/-- The chronological reading of the timestamps at microsecond precision:
the UTC instant denoted by an ISO-8601 timestamp either in git's `%cI`
shape `YYYY-MM-DDTHH:MM:SS±hh:mm` or in the
`datetime.now(timezone.utc).isoformat()` shape with fractional seconds
`YYYY-MM-DDTHH:MM:SS.ffffff±hh:mm`; `none` for other strings. -/
def isoUtcMicros (s : String) : Option Int :=
  match s.data with
  | [y1, y2, y3, y4, '-', m1, m2, '-', d1, d2, 'T',
     h1, h2, ':', i1, i2, ':', s1, s2, sg, o1, o2, ':', o3, o4] => do
    let y ← num4 y1 y2 y3 y4
    let mo ← num2 m1 m2
    let da ← num2 d1 d2
    let h ← num2 h1 h2
    let mi ← num2 i1 i2
    let se ← num2 s1 s2
    let oh ← num2 o1 o2
    let om ← num2 o3 o4
    fieldsToMicros y mo da h mi se 0 sg oh om
  | [y1, y2, y3, y4, '-', m1, m2, '-', d1, d2, 'T',
     h1, h2, ':', i1, i2, ':', s1, s2, '.', f1, f2, f3, f4, f5, f6, sg, o1, o2, ':', o3, o4] => do
    let y ← num4 y1 y2 y3 y4
    let mo ← num2 m1 m2
    let da ← num2 d1 d2
    let h ← num2 h1 h2
    let mi ← num2 i1 i2
    let se ← num2 s1 s2
    let fa ← num2 f1 f2
    let fb ← num2 f3 f4
    let fc ← num2 f5 f6
    let oh ← num2 o1 o2
    let om ← num2 o3 o4
    fieldsToMicros y mo da h mi se (fa * 10000 + fb * 100 + fc) sg oh om
  | _ => none

/-- Command-line arguments of `main`. -/
structure Args where
  output : Option String
  skip_render : Bool
  dry_run : Bool

/-- The recognized keys of the TOML configuration; `none` models an
absent key (`cfg.get` then yields the hardcoded default). -/
structure Config where
  content_dir : Option String
  static_dir : Option String
  media_dir : Option String
  output_dir : Option String
  repo_url : Option String
  branch : Option String
  site_title : Option String
  domain : Option String

/-- The ambient state `main` runs against: availability of the optional
rendering imports, the content tree, presence of the asset source
directories, the per-path subprocess results, the relpath function and
the clock. -/
structure Env where
  docutilsAvailable : Bool
  jinjaAvailable : Bool
  contentTree : Option Dir
  staticPresent : Bool
  mediaPresent : Bool
  gitLog : String → SubprocResult
  relpath : String → String
  now : String

/-- A file-producing side effect of `main` on the output directory. -/
inductive WriteEvent where
  | staticCopy
  | cname (content : String)
  | mediaCopy
  | pageHtml (filename : String)
  | indexHtml
deriving DecidableEq

/-- An unhandled exception terminating `main`. -/
inductive Crash where
  | fileNotFound
deriving DecidableEq

/-- The writes of the full-render tail of `main`, in program order:
`copy_static`, the optional CNAME (written only when `domain` is
truthy, i.e. a non-empty string), the tolerated `copy_media`, one HTML
file per page, and the index. -/
def publishWrites (cfg : Config) (env : Env) (pages : List Page) : List WriteEvent :=
  [WriteEvent.staticCopy]
    ++ (match cfg.domain with
        | some d => if d != "" then [WriteEvent.cname (pyStrip d ++ "\n")] else []
        | none => [])
    ++ (if env.mediaPresent then [WriteEvent.mediaCopy] else [])
    ++ pages.map (fun p => WriteEvent.pageHtml p.out_filename)
    ++ [WriteEvent.indexHtml]

/-- The page list `main` computes before branching: discovery, per-file
history extraction, page building, then the descending sort. -/
def builtPages (cfg : Config) (env : Env) : List Page :=
  order ((find_rst_files (cfg.content_dir.getD "content") env.contentTree).map
    (fun path => buildPage env.now path (env.relpath path) (git_log_commits (env.gitLog path))))

/-- Model of `main(argv)` as a function from arguments, parsed configuration and
ambient state to an exit code and the list of output-directory writes,
or a crash.  Mirrors the statement order of `generate.py`: the page
pipeline (`builtPages`, pure, hoisted into its own definition), then
the three early-exit modes (dry-run, skip-render,
missing-dependencies), then rendering and asset publishing.
`copy_static` raises `FileNotFoundError` when the static directory is
absent; the `copy_media` call is wrapped in
`try/except FileNotFoundError: pass`. -/
def mainModel (args : Args) (cfg : Config) (env : Env) :
    Except Crash (Nat × List WriteEvent) :=
  if args.dry_run then .ok (0, [])
  else if args.skip_render then .ok (0, [])
  else if !env.docutilsAvailable || !env.jinjaAvailable then .ok (2, [])
  else if !env.staticPresent then .error .fileNotFound
  else .ok (0, publishWrites cfg env (builtPages cfg env))

/-! Section: Properties of the stable sort -/

theorem insertLe_perm {α : Type} (le : α → α → Bool) (a : α) (l : List α) :
    (insertLe le a l).Perm (a :: l) := by
  induction l with
  | nil => exact List.Perm.refl _
  | cons b t ih =>
    rw [insertLe]
    by_cases h : le a b = true
    · rw [if_pos h]
    · rw [if_neg h]
      exact (ih.cons b).trans (List.Perm.swap a b t)

theorem sortLe_perm {α : Type} (le : α → α → Bool) (l : List α) :
    (sortLe le l).Perm l := by
  induction l with
  | nil => exact List.Perm.refl _
  | cons a t ih =>
    rw [sortLe]
    exact (insertLe_perm le a (sortLe le t)).trans (ih.cons a)

theorem pairwise_insertLe {α : Type} {le : α → α → Bool}
    (trans : ∀ x y z, le x y = true → le y z = true → le x z = true)
    (total : ∀ x y, le x y = true ∨ le y x = true)
    (a : α) {l : List α} (h : l.Pairwise (fun x y => le x y = true)) :
    (insertLe le a l).Pairwise (fun x y => le x y = true) := by
  induction l with
  | nil => simp [insertLe]
  | cons b t ih =>
    rw [insertLe]
    by_cases hab : le a b = true
    · rw [if_pos hab]
      refine List.Pairwise.cons ?_ h
      intro x hx
      rcases List.mem_cons.mp hx with rfl | hxt
      · exact hab
      · exact trans a b x hab (List.rel_of_pairwise_cons h hxt)
    · rw [if_neg hab]
      have hba : le b a = true := (total a b).resolve_left hab
      refine List.Pairwise.cons ?_ (ih h.of_cons)
      intro x hx
      rcases List.mem_cons.mp ((insertLe_perm le a t).mem_iff.mp hx) with rfl | hxt
      · exact hba
      · exact List.rel_of_pairwise_cons h hxt

theorem pairwise_sortLe {α : Type} {le : α → α → Bool}
    (trans : ∀ x y z, le x y = true → le y z = true → le x z = true)
    (total : ∀ x y, le x y = true ∨ le y x = true) :
    ∀ l : List α, (sortLe le l).Pairwise (fun x y => le x y = true)
  | [] => List.Pairwise.nil
  | a :: t => pairwise_insertLe trans total a (pairwise_sortLe trans total t)

theorem filter_insertLe {α : Type} {le : α → α → Bool} {p : α → Bool} {a : α}
    (hle : p a = true → ∀ b, p b = true → le a b = true) (l : List α) :
    (insertLe le a l).filter p
      = if p a = true then a :: l.filter p else l.filter p := by
  induction l with
  | nil =>
    rw [insertLe]
    by_cases hpa : p a = true <;> simp [List.filter, hpa]
  | cons b t ih =>
    rw [insertLe]
    by_cases hab : le a b = true
    · rw [if_pos hab]
      by_cases hpa : p a = true <;> simp [List.filter_cons, hpa]
    · rw [if_neg hab]
      rw [List.filter_cons, List.filter_cons]
      by_cases hpb : p b = true
      · have hpa : p a ≠ true := fun hpa => hab (hle hpa b hpb)
        simp [hpb, ih, hpa]
      · by_cases hpa : p a = true <;> simp [hpa, hpb, ih]

theorem filter_sortLe {α : Type} {le : α → α → Bool} {p : α → Bool}
    (hp : ∀ x y, p x = true → p y = true → le x y = true) (l : List α) :
    (sortLe le l).filter p = l.filter p := by
  induction l with
  | nil => rfl
  | cons a t ih =>
    rw [sortLe, filter_insertLe (fun hpa b hpb => hp a b hpa hpb), List.filter_cons]
    by_cases hpa : p a = true <;> simp [hpa, ih]

/-! Section: Bridging the boolean comparisons to the string order -/

theorem strLe_iff (a b : String) : strLe a b = true ↔ a ≤ b := by
  rw [strLe, decide_eq_true_iff]
  exact String.le_iff_toList_le.symm

theorem strLe_trans (a b c : String) (h1 : strLe a b = true) (h2 : strLe b c = true) :
    strLe a c = true := by
  rw [strLe_iff] at h1 h2 ⊢
  exact le_trans h1 h2

theorem strLe_total (a b : String) : strLe a b = true ∨ strLe b a = true := by
  rw [strLe_iff, strLe_iff]
  exact le_total a b

theorem pageLe_iff (a b : Page) :
    pageLe a b = true ↔ b.first_commit_date ≤ a.first_commit_date := by
  rw [pageLe, decide_eq_true_iff]
  exact String.le_iff_toList_le.symm

theorem pageLe_trans (a b c : Page) (h1 : pageLe a b = true) (h2 : pageLe b c = true) :
    pageLe a c = true := by
  rw [pageLe_iff] at h1 h2 ⊢
  exact le_trans h2 h1

theorem pageLe_total (a b : Page) : pageLe a b = true ∨ pageLe b a = true := by
  rw [pageLe_iff, pageLe_iff]
  exact le_total b.first_commit_date a.first_commit_date

/-! Section: Claim C1 — page ordering -/

/-- Claim C1 (amended): for every list of pages, Page Ordering returns a
stable sort keyed by the `first_commit_date` string, descending under
lexicographic (code-point) string comparison: the output is a
permutation of the input, every page's key is lexicographically at
least the next one's (so a page with a strictly greater key string
appears strictly before any page with a smaller one, regardless of
input order), and pages with equal key strings keep their input
order. -/
theorem order_stable_sorted_desc (ps : List Page) :
    (order ps).Perm ps
  ∧ (order ps).Pairwise (fun a b => b.first_commit_date ≤ a.first_commit_date)
  ∧ ∀ k : String,
      (order ps).filter (fun p => p.first_commit_date == k)
        = ps.filter (fun p => p.first_commit_date == k) := by
  refine ⟨sortLe_perm _ _, ?_, ?_⟩
  · exact (pairwise_sortLe pageLe_trans pageLe_total ps).imp
      (fun {a b} h => (pageLe_iff a b).mp h)
  · intro k
    refine filter_sortLe ?_ ps
    intro x y hx hy
    rw [beq_iff_eq] at hx hy
    rw [pageLe_iff, hx, hy]

/-- First input page of the ordering counterexample: its only (hence
oldest) commit is at 10:00 in UTC+2, i.e. 08:00 UTC. -/
def pageA : Page :=
  buildPage "2025-01-01T00:00:00+00:00" "content/a.rst" "content/a.rst"
    [⟨ "aaa1111", "2023-06-15T10:00:00+02:00", "Author A", "first a"⟩]

/-- Second input page of the ordering counterexample: its only (hence
oldest) commit is at 09:30 UTC — chronologically later than pageA's,
but with a lexicographically smaller `%cI` string. -/
def pageB : Page :=
  buildPage "2025-01-01T00:00:00+00:00" "content/b.rst" "content/b.rst"
    [⟨ "bbb2222", "2023-06-15T09:30:00+00:00", "Author B", "first b"⟩]

/-- Claim C1 is false as stated: pageB's oldest commit is chronologically
later than pageA's (09:30:00Z versus 08:00:00Z, i.e. epoch seconds
1686821400 versus 1686816000), both histories are non-empty and
distinct, yet `order` places pageA strictly before pageB for either
input order, because the sort compares the raw `%cI` strings and
`"...T10:00:00+02:00"` is lexicographically greater than
`"...T09:30:00+00:00"`. -/
theorem order_ignores_timezone_offsets :
    pageA.commits ≠ [] ∧ pageB.commits ≠ [] ∧ pageA.commits ≠ pageB.commits
  ∧ isoUtcSeconds (first_commit_date "2025-01-01T00:00:00+00:00" pageA.commits)
      = some 1686816000
  ∧ isoUtcSeconds (first_commit_date "2025-01-01T00:00:00+00:00" pageB.commits)
      = some 1686821400
  ∧ (1686816000 : Int) < 1686821400
  ∧ order [pageA, pageB] = [pageA, pageB]
  ∧ order [pageB, pageA] = [pageA, pageB] := by decide

/-! Section: Claim C3 — first commit date -/

/-- Input page of the C3 counterexample with no history: its key is the
clock reading, in the fractional-seconds shape that
`datetime.now(timezone.utc).isoformat()` produces. -/
def pageUntracked : Page :=
  buildPage "2026-10-12T07:45:00.123456+00:00" "content/new.rst" "content/new.rst" []

/-- Input page of the C3 counterexample with one commit recorded 45
minutes before the clock reading, at 09:00 in UTC+2 (07:00Z) — in the
past, yet with a `%cI` string lexicographically above the clock
string. -/
def pageTracked : Page :=
  buildPage "2026-10-12T07:45:00.123456+00:00" "content/old.rst" "content/old.rst"
    [⟨ "cafe123", "2026-10-12T09:00:00+02:00", "Author", "older change"⟩]

/-- Claim C3's final clause ("so a page with no history sorts as newest")
is false as stated: the untracked page's key is the clock reading
2026-10-12T07:45:00.123456+00:00 (07:45:00.123456Z, epoch microseconds
1791791100123456), the tracked page's oldest commit happened 45 minutes
earlier at 2026-10-12T09:00:00+02:00 (07:00:00Z, 1791788400000000), yet
the raw-string sort places the tracked page strictly before the
untracked one in either input order, because its `%cI` string is
lexicographically greater than the clock string. -/
theorem untracked_page_not_newest :
    pageUntracked.commits = []
  ∧ pageUntracked.first_commit_date = "2026-10-12T07:45:00.123456+00:00"
  ∧ pageTracked.commits ≠ []
  ∧ isoUtcMicros (first_commit_date "2026-10-12T07:45:00.123456+00:00" pageTracked.commits)
      = some 1791788400000000
  ∧ isoUtcMicros "2026-10-12T07:45:00.123456+00:00" = some 1791791100123456
  ∧ (1791788400000000 : Int) < 1791791100123456
  ∧ order [pageUntracked, pageTracked] = [pageTracked, pageUntracked]
  ∧ order [pageTracked, pageUntracked] = [pageTracked, pageUntracked] := by decide

/-- Claim C3 (amended): `first_commit_date` of a non-empty newest-first
commit list is the date of its last element (the oldest commit); of an
empty list it is the current timestamp `now`; and a page with no
history, whose key is therefore `now`, sorts as newest in the
lexicographic sense: it heads the ordered list whenever every other
page's key string is lexicographically below `now` (as when all
timestamps share one fixed zone-normalized format and every commit is
in the past) — but not unconditionally, since git's `%cI` offsets can
put a past commit's string above the clock string. -/
theorem first_commit_date_spec :
    (∀ (now : String) (cs : List Commit) (h : cs ≠ []),
        first_commit_date now cs = (cs.getLast h).date)
  ∧ (∀ now : String, first_commit_date now [] = now)
  ∧ (∀ (now path rel : String) (l₁ l₂ : List Page),
        (∀ q ∈ l₁ ++ l₂, q.first_commit_date < now) →
        (order (l₁ ++ buildPage now path rel [] :: l₂)).head?
          = some (buildPage now path rel [])) := by
  refine ⟨?_, ?_, ?_⟩
  · intro now cs h
    rw [first_commit_date, dif_neg h]
  · intro now
    rfl
  · intro now path rel l₁ l₂ hlt
    set p := buildPage now path rel [] with hp
    have hkey : p.first_commit_date = now := rfl
    have hperm : (order (l₁ ++ p :: l₂)).Perm (l₁ ++ p :: l₂) := sortLe_perm _ _
    have hpmem : p ∈ order (l₁ ++ p :: l₂) := hperm.mem_iff.mpr (by simp)
    have hpw : (order (l₁ ++ p :: l₂)).Pairwise (fun a b => pageLe a b = true) :=
      pairwise_sortLe pageLe_trans pageLe_total _
    cases hol : order (l₁ ++ p :: l₂) with
    | nil => rw [hol] at hpmem; cases hpmem
    | cons h₀ t =>
      rw [hol] at hpmem hpw hperm
      show some h₀ = some p
      by_cases hcase : h₀ = p
      · rw [hcase]
      · exfalso
        have hh₀ : h₀ ∈ l₁ ++ p :: l₂ := hperm.mem_iff.mp (List.mem_cons_self h₀ t)
        have hh₀' : h₀ ∈ l₁ ++ l₂ := by
          rcases List.mem_append.mp hh₀ with hmem | hmem
          · exact List.mem_append.mpr (Or.inl hmem)
          · rcases List.mem_cons.mp hmem with heq | hmem
            · exact absurd heq hcase
            · exact List.mem_append.mpr (Or.inr hmem)
        have hpt : p ∈ t := by
          rcases List.mem_cons.mp hpmem with heq | hpt
          · exact absurd heq.symm hcase
          · exact hpt
        have hle : now ≤ h₀.first_commit_date := by
          have h' := List.rel_of_pairwise_cons hpw hpt
          rw [pageLe_iff, hkey] at h'
          exact h'
        exact (hlt h₀ hh₀').not_le hle

/-- A page with no history inserted among strictly older pages: concrete
instance of C3.  The untracked page's key is the current timestamp and
it heads the ordered list. -/
theorem first_commit_date_spec_witness :
    first_commit_date "2025-01-01T00:00:00+00:00"
        [⟨ "h1", "2024-05-05T12:00:00+00:00", "a", "m"⟩] = "2024-05-05T12:00:00+00:00"
  ∧ first_commit_date "2025-01-01T00:00:00+00:00" [] = "2025-01-01T00:00:00+00:00"
  ∧ (order [pageA, buildPage "2025-01-01T00:00:00+00:00" "content/new.rst" "content/new.rst" []]).head?
      = some (buildPage "2025-01-01T00:00:00+00:00" "content/new.rst" "content/new.rst" []) :=
  ⟨first_commit_date_spec.1 "2025-01-01T00:00:00+00:00" _ (by decide),
   first_commit_date_spec.2.1 "2025-01-01T00:00:00+00:00",
   first_commit_date_spec.2.2 "2025-01-01T00:00:00+00:00" "content/new.rst" "content/new.rst"
     [pageA] []
     (by
       intro q hq
       have hq' : q = pageA := by simpa using hq
       subst hq'
       exact String.lt_iff_toList_lt.mpr (by decide))⟩

/-! Section: Claim C4 — content discovery -/

mutual
theorem mem_walkDir (root : String) (d : Dir) (p : String) :
    p ∈ walkDir root d
      ↔ ∃ e ∈ filesUnder root d, p = e.1 ∧ isRstName e.2 = true := by
  match d with
  | .mk fs sds =>
    rw [walkDir, filesUnder]
    rw [List.mem_append]
    rw [mem_walkDirs root sds p]
    constructor
    · intro h
      rcases h with h | ⟨e, he, hpe, hrst⟩
      · rcases List.mem_map.mp h with ⟨fn, hfn, hpfn⟩
        rcases List.mem_filter.mp hfn with ⟨hmem, hrst⟩
        exact ⟨ (pathJoin root fn, fn),
          List.mem_append.mpr (Or.inl (List.mem_map.mpr ⟨fn, hmem, rfl⟩)), hpfn.symm, hrst⟩
      · exact ⟨e, List.mem_append.mpr (Or.inr he), hpe, hrst⟩
    · intro ⟨e, he, hpe, hrst⟩
      rcases List.mem_append.mp he with he | he
      · rcases List.mem_map.mp he with ⟨fn, hfn, hefn⟩
        subst hefn
        exact Or.inl (List.mem_map.mpr ⟨fn, List.mem_filter.mpr ⟨hfn, hrst⟩, hpe.symm⟩)
      · exact Or.inr ⟨e, he, hpe, hrst⟩
theorem mem_walkDirs (root : String) (ds : DirList) (p : String) :
    p ∈ walkDirs root ds
      ↔ ∃ e ∈ filesUnders root ds, p = e.1 ∧ isRstName e.2 = true := by
  match ds with
  | .nil => simp [walkDirs, filesUnders]
  | .cons n d rest =>
    rw [walkDirs, filesUnders, List.mem_append]
    rw [mem_walkDir (pathJoin root n) d p, mem_walkDirs root rest p]
    constructor
    · intro h
      rcases h with ⟨e, he, hpe, hrst⟩ | ⟨e, he, hpe, hrst⟩
      · exact ⟨e, List.mem_append.mpr (Or.inl he), hpe, hrst⟩
      · exact ⟨e, List.mem_append.mpr (Or.inr he), hpe, hrst⟩
    · intro ⟨e, he, hpe, hrst⟩
      rcases List.mem_append.mp he with he | he
      · exact Or.inl ⟨e, he, hpe, hrst⟩
      · exact Or.inr ⟨e, he, hpe, hrst⟩
end

/-- Claim C4: for every content directory, Content Discovery returns a
lexicographically sorted sequence whose members are exactly the full
paths of the files anywhere under the directory whose name ends in
`".rst"` case-insensitively; an absent directory (and so also an empty
one) yields the empty sequence rather than an error. -/
theorem find_rst_files_spec (content_dir : String) (fs : Option Dir) :
    (find_rst_files content_dir fs).Pairwise (fun a b => a ≤ b)
  ∧ (∀ p : String, p ∈ find_rst_files content_dir fs ↔
      ∃ d, fs = some d ∧ ∃ e ∈ filesUnder content_dir d, p = e.1 ∧ isRstName e.2 = true)
  ∧ find_rst_files content_dir none = [] := by
  refine ⟨?_, ?_, rfl⟩
  · cases fs with
    | none => exact List.Pairwise.nil
    | some d =>
      exact (pairwise_sortLe strLe_trans strLe_total _).imp
        (fun {a b} h => (strLe_iff a b).mp h)
  · intro p
    cases fs with
    | none => simp [find_rst_files]
    | some d =>
      rw [find_rst_files]
      rw [(sortLe_perm strLe (walkDir content_dir d)).mem_iff]
      rw [mem_walkDir content_dir d p]
      simp

/-! Section: Claim C5 — history extraction -/

theorem splitPipe3_length_le (l : String) : (splitPipe3 l).length ≤ 4 := by
  unfold splitPipe3
  rcases h : splitOnChar '|' l with _ | ⟨p0, _ | ⟨p1, _ | ⟨p2, _ | ⟨p3, tl⟩⟩⟩⟩ <;> simp

theorem collectCommits_eq (ls : List String) :
    collectCommits ls
      = (ls.filter (fun l => 4 ≤ (splitPipe3 l).length)).map lineToCommit := by
  induction ls with
  | nil => rfl
  | cons l rest ih =>
    rw [collectCommits, List.filter_cons]
    rcases h : splitPipe3 l with _ | ⟨a, _ | ⟨b, _ | ⟨c, _ | ⟨d, _ | ⟨e, tl⟩⟩⟩⟩⟩
    · simp [h, ih]
    · simp [h, ih]
    · simp [h, ih]
    · simp [h, ih]
    · simp [h, ih, lineToCommit]
    · exfalso
      have hle := splitPipe3_length_le l
      rw [h] at hle
      simp at hle

/-- Claim C5: the History Extractor returns an empty commit list whenever
the subprocess exits non-zero, and otherwise returns exactly one commit
record per stdout line that splits into at least four pipe-delimited
fields (in line order), silently dropping every other line. -/
theorem git_log_commits_spec (res : SubprocResult) :
    (res.returncode ≠ 0 → git_log_commits res = [])
  ∧ (res.returncode = 0 →
      git_log_commits res = (keptLogLines res.stdout).map lineToCommit) := by
  constructor
  · intro h
    rw [git_log_commits, if_pos h]
  · intro h
    rw [git_log_commits, if_neg (not_not_intro h), keptLogLines, collectCommits_eq]

/-- Concrete instance of C5: a failing invocation yields no commits; a
successful one parses exactly the well-formed lines. -/
theorem git_log_commits_spec_witness :
    git_log_commits ⟨128, "h|d|a|s"⟩ = []
  ∧ git_log_commits ⟨0, "h1|d1|a1|s1\nnoisy line\n\nh2|d2|a2|s2|x\n"⟩
      = (keptLogLines "h1|d1|a1|s1\nnoisy line\n\nh2|d2|a2|s2|x\n").map lineToCommit :=
  ⟨ (git_log_commits_spec ⟨128, "h|d|a|s"⟩).1 (by decide),
   (git_log_commits_spec ⟨0, "h1|d1|a1|s1\nnoisy line\n\nh2|d2|a2|s2|x\n"⟩).2 rfl⟩

/-! Section: Claim C2 — repository URL normalization -/

/-- Claim C2 fails on the code: Python's `rstrip(".git")` removes trailing
characters drawn from the set of '.', 'g', 'i', 't' rather than one
`".git"` suffix, so for the repository URL `"https://example.com/digit"`
the code produces `"https://example.com/d/commit/abc123"` while the
specified suffix-stripping normalization leaves the URL unchanged.  The
claim's own `repo.git` examples do agree with the code, since there the
character-set strip happens to remove exactly the suffix. -/
theorem commit_url_rstrip_divergence :
    commit_url "https://example.com/digit" "abc123" = "https://example.com/d/commit/abc123"
  ∧ specNormalizeRepoUrl "https://example.com/digit" = "https://example.com/digit"
  ∧ commit_url "https://example.com/digit" "abc123"
      ≠ specNormalizeRepoUrl "https://example.com/digit" ++ "/commit/" ++ "abc123"
  ∧ commits_for_path_url "https://example.com/digit" "main" "docs/x.rst"
      = "https://example.com/d/commits/main/docs/x.rst"
  ∧ commit_url "https://example.com/repo.git" "abc123"
      = "https://example.com/repo/commit/abc123"
  ∧ commits_for_path_url "https://example.com/repo.git" "main" "docs/x.rst"
      = "https://example.com/repo/commits/main/docs/x.rst" := by decide

/-! Section: Claim C8 — placeholder URLs -/

/-- Claim C8: with no repository URL configured (key absent, which
`cfg.get("repo_url", "")` defaults to the empty string, or explicitly
empty), both URL helpers return the placeholder `"#"` for every
input. -/
theorem placeholder_urls (repo : Option String) (sha branch relpath : String)
    (h : repo = none ∨ repo = some "") :
    commit_url (repo.getD "") sha = "#"
  ∧ commits_for_path_url (repo.getD "") branch relpath = "#" := by
  rcases h with rfl | rfl <;> exact ⟨rfl, rfl⟩

/-- Concrete instance of C8 at an absent `repo_url` key. -/
theorem placeholder_urls_witness :
    commit_url ((none : Option String).getD "") "abc123" = "#"
  ∧ commits_for_path_url ((none : Option String).getD "") "main" "docs/x.rst" = "#" :=
  placeholder_urls none "abc123" "main" "docs/x.rst" (Or.inl rfl)

/-! Section: Claims C6, C7, C9, C10 — the effect model of main -/

theorem cname_mem_publishWrites (cfg : Config) (env : Env) (pages : List Page) (s : String) :
    WriteEvent.cname s ∈ publishWrites cfg env pages
      ↔ ∃ d, cfg.domain = some d ∧ d ≠ "" ∧ s = pyStrip d ++ "\n" := by
  rw [publishWrites]
  rcases hdom : cfg.domain with _ | d
  · by_cases hm : env.mediaPresent = true <;> simp [hm, hdom]
  · by_cases hd : d = ""
    · subst hd
      by_cases hm : env.mediaPresent = true <;> simp [hm, hdom]
    · have hbne : (d != "") = true := bne_iff_ne.mpr hd
      by_cases hm : env.mediaPresent = true <;> simp [hm, hdom, hbne, hd]

/-- Claim C6: during asset publishing an absent media directory is
tolerated — the copy is skipped and the run still completes normally —
whereas an absent static directory aborts the run with a filesystem
error. -/
theorem asset_publishing_spec (args : Args) (cfg : Config) (env : Env)
    (hdry : args.dry_run = false) (hskip : args.skip_render = false)
    (hdoc : env.docutilsAvailable = true) (hjin : env.jinjaAvailable = true) :
    (env.staticPresent = false → mainModel args cfg env = .error .fileNotFound)
  ∧ (env.staticPresent = true → env.mediaPresent = false →
      (∃ r, mainModel args cfg env = .ok r)
    ∧ ∀ c ws, mainModel args cfg env = .ok (c, ws) → WriteEvent.mediaCopy ∉ ws) := by
  constructor
  · intro hs
    rw [mainModel]
    simp [hdry, hskip, hdoc, hjin, hs]
  · intro hs hm
    have hrun : mainModel args cfg env
        = .ok (0, publishWrites cfg env (builtPages cfg env)) := by
      rw [mainModel]
      simp [hdry, hskip, hdoc, hjin, hs]
    refine ⟨⟨_, hrun⟩, ?_⟩
    intro c ws h
    rw [hrun] at h
    have hws : ws = publishWrites cfg env (builtPages cfg env) :=
      ((Prod.mk.injEq _ _ _ _).mp (Except.ok.inj h)).2.symm
    subst hws
    rcases hdom : cfg.domain with _ | d
    · simp [publishWrites, hm, hdom]
    · by_cases hd : d = "" <;> simp [publishWrites, hm, hdom, hd]

/-- Sample configuration with every key absent. -/
def cfgSample : Config := ⟨none, none, none, none, none, none, none, none⟩

/-- Sample ambient state: both libraries available, both asset
directories present, no content, a trivially succeeding git. -/
def envSample : Env :=
  ⟨true, true, none, true, true, fun _ => ⟨0, ""⟩, fun p => p, "2025-01-01T00:00:00+00:00"⟩

def envNoDeps : Env := { envSample with docutilsAvailable := false }

def envNoStatic : Env := { envSample with staticPresent := false }

def envNoMedia : Env := { envSample with mediaPresent := false }

def argsFull : Args := ⟨none, false, false⟩

def argsDry : Args := ⟨none, false, true⟩

def argsSkip : Args := ⟨none, true, false⟩

/-- Concrete instance of C6: with the static directory absent the run
crashes with a filesystem error; with only the media directory absent
it completes and never copies media. -/
theorem asset_publishing_spec_witness :
    mainModel argsFull cfgSample envNoStatic = .error .fileNotFound
  ∧ ((∃ r, mainModel argsFull cfgSample envNoMedia = .ok r)
      ∧ ∀ c ws, mainModel argsFull cfgSample envNoMedia = .ok (c, ws) →
          WriteEvent.mediaCopy ∉ ws) :=
  ⟨ (asset_publishing_spec argsFull cfgSample envNoStatic rfl rfl rfl rfl).1 rfl,
   (asset_publishing_spec argsFull cfgSample envNoMedia rfl rfl rfl rfl).2 rfl rfl⟩

/-- Claim C7: in full-render mode, when either rendering library is
unavailable the program exits with code 2 having written nothing to the
output directory; when both are available and the static directory
exists the run succeeds with exit code 0; and every non-crashing run
exits 0 or exits 2 with no writes. -/
theorem render_exit_codes (args : Args) (cfg : Config) (env : Env)
    (hdry : args.dry_run = false) (hskip : args.skip_render = false) :
    ((env.docutilsAvailable = false ∨ env.jinjaAvailable = false) →
        mainModel args cfg env = .ok (2, []))
  ∧ (env.docutilsAvailable = true → env.jinjaAvailable = true →
        env.staticPresent = true →
        mainModel args cfg env
          = .ok (0, publishWrites cfg env (builtPages cfg env)))
  ∧ (∀ c ws, mainModel args cfg env = .ok (c, ws) → c = 0 ∨ (c = 2 ∧ ws = [])) := by
  refine ⟨?_, ?_, ?_⟩
  · rintro (hdoc | hjin)
    · rw [mainModel]
      simp [hdry, hskip, hdoc]
    · rw [mainModel]
      simp [hdry, hskip, hjin]
  · intro hdoc hjin hs
    rw [mainModel]
    simp [hdry, hskip, hdoc, hjin, hs]
  · intro c ws h
    rw [mainModel] at h
    rw [if_neg (by simp [hdry]), if_neg (by simp [hskip])] at h
    by_cases hdep : (!env.docutilsAvailable || !env.jinjaAvailable) = true
    · rw [if_pos hdep] at h
      have hc := (Prod.mk.injEq _ _ _ _).mp (Except.ok.inj h)
      exact Or.inr ⟨hc.1.symm, hc.2.symm⟩
    · rw [if_neg hdep] at h
      by_cases hst : (!env.staticPresent) = true
      · rw [if_pos hst] at h
        cases h
      · rw [if_neg hst] at h
        exact Or.inl ((Prod.mk.injEq _ _ _ _).mp (Except.ok.inj h)).1.symm

/-- Concrete instance of C7: missing docutils means exit code 2 with no
writes; with everything available the run succeeds with exit code 0. -/
theorem render_exit_codes_witness :
    mainModel argsFull cfgSample envNoDeps = .ok (2, [])
  ∧ mainModel argsFull cfgSample envSample
      = .ok (0, publishWrites cfgSample envSample (builtPages cfgSample envSample)) :=
  ⟨ (render_exit_codes argsFull cfgSample envNoDeps rfl rfl).1 (Or.inl rfl),
   (render_exit_codes argsFull cfgSample envSample rfl rfl).2.1 rfl rfl rfl⟩

/-- Claim C9: dry-run mode and skip-render mode return exit code 0 and
produce no output-directory writes, regardless of the availability of
the rendering libraries: both modes return before the dependency check
and before any write. -/
theorem early_modes_no_writes (args : Args) (cfg : Config) (env : Env) :
    (args.dry_run = true → mainModel args cfg env = .ok (0, []))
  ∧ (args.dry_run = false → args.skip_render = true →
      mainModel args cfg env = .ok (0, [])) := by
  constructor
  · intro h
    rw [mainModel]
    simp [h]
  · intro h1 h2
    rw [mainModel]
    simp [h1, h2]

/-- Concrete instance of C9: both early modes succeed with no writes even
though docutils is unavailable in this environment. -/
theorem early_modes_no_writes_witness :
    mainModel argsDry cfgSample envNoDeps = .ok (0, [])
  ∧ mainModel argsSkip cfgSample envNoDeps = .ok (0, []) :=
  ⟨ (early_modes_no_writes argsDry cfgSample envNoDeps).1 rfl,
   (early_modes_no_writes argsSkip cfgSample envNoDeps).2 rfl rfl⟩

/-- Claim C10: in any non-crashing run, a CNAME marker write occurs only
when the configured domain is a non-empty string; when the domain key
is absent or maps to the empty string no CNAME is written. -/
theorem cname_only_for_nonempty_domain (args : Args) (cfg : Config) (env : Env)
    (c : Nat) (ws : List WriteEvent) (h : mainModel args cfg env = .ok (c, ws)) :
    ((cfg.domain = none ∨ cfg.domain = some "") → ∀ s, WriteEvent.cname s ∉ ws)
  ∧ (∀ s, WriteEvent.cname s ∈ ws → ∃ d, cfg.domain = some d ∧ d ≠ "") := by
  rw [mainModel] at h
  by_cases h1 : args.dry_run = true
  · rw [if_pos h1] at h
    have hws := ((Prod.mk.injEq _ _ _ _).mp (Except.ok.inj h)).2
    rw [← hws]
    exact ⟨fun _ s => List.not_mem_nil _, fun s hs => ((List.not_mem_nil _) hs).elim⟩
  · rw [if_neg h1] at h
    by_cases h2 : args.skip_render = true
    · rw [if_pos h2] at h
      have hws := ((Prod.mk.injEq _ _ _ _).mp (Except.ok.inj h)).2
      rw [← hws]
      exact ⟨fun _ s => List.not_mem_nil _, fun s hs => ((List.not_mem_nil _) hs).elim⟩
    · rw [if_neg h2] at h
      by_cases hdep : (!env.docutilsAvailable || !env.jinjaAvailable) = true
      · rw [if_pos hdep] at h
        have hws := ((Prod.mk.injEq _ _ _ _).mp (Except.ok.inj h)).2
        rw [← hws]
        exact ⟨fun _ s => List.not_mem_nil _, fun s hs => ((List.not_mem_nil _) hs).elim⟩
      · rw [if_neg hdep] at h
        by_cases hst : (!env.staticPresent) = true
        · rw [if_pos hst] at h
          cases h
        · rw [if_neg hst] at h
          have hws := ((Prod.mk.injEq _ _ _ _).mp (Except.ok.inj h)).2
          rw [← hws]
          constructor
          · rintro (hdom | hdom) s hs
            · rcases (cname_mem_publishWrites cfg env _ s).mp hs with ⟨d, hd, hne, _⟩
              rw [hdom] at hd
              cases hd
            · rcases (cname_mem_publishWrites cfg env _ s).mp hs with ⟨d, hd, hne, _⟩
              rw [hdom] at hd
              exact hne (Option.some.inj hd).symm
          · intro s hs
            rcases (cname_mem_publishWrites cfg env _ s).mp hs with ⟨d, hd, hne, _⟩
            exact ⟨d, hd, hne⟩

/-- Concrete instance of C10: a successful run with no configured domain
writes no CNAME. -/
theorem cname_only_for_nonempty_domain_witness :
    WriteEvent.cname "x"
      ∉ [WriteEvent.staticCopy, WriteEvent.mediaCopy, WriteEvent.indexHtml] :=
  (cname_only_for_nonempty_domain argsFull cfgSample envSample 0
      [WriteEvent.staticCopy, WriteEvent.mediaCopy, WriteEvent.indexHtml] rfl).1
    (Or.inl rfl) "x"

end SiteGen
